import Mathlib

/-!
Shallow embedding of the Excel range-reader service
(`src/ExcelRangeReaderServiceData.ts`, class `ExcelReaderService`).

The service's pure core is modelled here: range-expression parsing
(`parseInterval`), cell lookup by regex over the raw worksheet markup
(`getCellValue`), number-format classification (`isDateFormat`,
`isPercentFormat`), Excel serial-date rendering (`excelDateToString`)
and the per-call extraction loop (`lerIntervalos`).

Modelling conventions:
* Strings are handled as `List Char` internally (`String.data` at the API).
* JavaScript numbers are modelled as `ℚ`; `Number(string)` is modelled by
  `jsNumber?` over the decimal-literal grammar (`none` plays the role of
  `NaN`); binary floating-point rounding is outside the model.
* A JS `throw` is modelled by an `Option`/`none` result.
* `Date` arithmetic is modelled with a fixed UTC offset (proleptic
  Gregorian calendar, Hinnant's civil-from-days algorithm); historical
  timezone-offset changes are outside the model.
* The zip-container I/O (`JSZip`) and the XML-part parsers whose internals
  no claim touches (`parseSharedStrings`, `parseStyles`) are outside the
  modelled core: `lerIntervalos` receives the worksheet markup, the
  shared-string table and the `StylesInfo` snapshot directly.  The
  source's fallback for a missing styles part (lines 46-49) is the
  `emptyStyles` value.
-/

namespace ExcelReader

/-- ASCII letter class, the `[A-Z]` atom of the source's range regexes
under the `i` flag (`A`-`Z` or `a`-`z`). -/
def isAsciiLetter (c : Char) : Bool :=
  (65 ≤ c.toNat && c.toNat ≤ 90) || (97 ≤ c.toNat && c.toNat ≤ 122)

/-- ASCII digit class, the `\d` atom of the source's regexes. -/
def isDigitCh (c : Char) : Bool :=
  48 ≤ c.toNat && c.toNat ≤ 57

/-- Value of a digit string, as `Number` computes it on an all-digit
input (e.g. `Number("12") = 12`). -/
def digitsToNat (ds : List Char) : Nat :=
  ds.foldl (fun a c => a * 10 + (c.toNat - 48)) 0

/-- Case-insensitive equality of character sequences, the semantics of the
backreference `\1` under the `i` flag (ASCII canonicalisation by
uppercasing). -/
def eqCI (a b : List Char) : Bool :=
  a.map Char.toUpper == b.map Char.toUpper

/-- The range-form regex `^([A-Z]+)(\d+)-\1(\d+)$/i` of `parseInterval`
(source lines 205-211).  Greediness makes the decomposition unique: the
column token is the maximal letter prefix, the first row token the maximal
digit run before `-`, the backreference consumes exactly the column
token's length, and the final digit run must reach the end. -/
def matchRangeForm (cs : List Char) : Option (String × Nat × Nat) :=
  let col := cs.takeWhile isAsciiLetter
  let rest := cs.dropWhile isAsciiLetter
  let d1 := rest.takeWhile isDigitCh
  let rest2 := rest.dropWhile isDigitCh
  if col.isEmpty || d1.isEmpty then none
  else
    match rest2 with
    | '-' :: rest3 =>
        let col2 := rest3.take col.length
        let d2 := rest3.drop col.length
        if eqCI col2 col && !d2.isEmpty && d2.all isDigitCh then
          some (String.mk (col.map Char.toUpper), digitsToNat d1, digitsToNat d2)
        else none
    | _ => none

/-- The single-cell regex `^([A-Z]+)(\d+)$/i` of `parseInterval`
(source lines 215-223): maximal letter prefix, maximal digit run,
end of string. -/
def matchSingleForm (cs : List Char) : Option (String × Nat) :=
  let col := cs.takeWhile isAsciiLetter
  let rest := cs.dropWhile isAsciiLetter
  let d := rest.takeWhile isDigitCh
  let rest2 := rest.dropWhile isDigitCh
  if col.isEmpty || d.isEmpty || !rest2.isEmpty then none
  else some (String.mk (col.map Char.toUpper), digitsToNat d)

/-- `ExcelReaderService.parseInterval` (source lines 198-226): try the
range form, then the single-cell form, else throw (`none`).  On success
the column is uppercased; the single-cell form yields `start = end`. -/
def parseInterval (interval : String) : Option (String × Nat × Nat) :=
  match matchRangeForm interval.data with
  | some r => some r
  | none =>
      match matchSingleForm interval.data with
      | some (col, row) => some (col, row, row)
      | none => none

/-- The strings accepted by the range-form grammar
`^([A-Z]+)(\d+)-\1(\d+)$/i`: letters, digits, `-`, the same letters up to
case, digits. -/
def RangeForm (s : String) : Prop :=
  ∃ c1 d1 c2 d2 : List Char,
    s.data = c1 ++ d1 ++ '-' :: (c2 ++ d2) ∧
    c1 ≠ [] ∧ (∀ c ∈ c1, isAsciiLetter c = true) ∧
    d1 ≠ [] ∧ (∀ c ∈ d1, isDigitCh c = true) ∧
    (∀ c ∈ c2, isAsciiLetter c = true) ∧
    d2 ≠ [] ∧ (∀ c ∈ d2, isDigitCh c = true) ∧
    eqCI c1 c2 = true

/-- The strings accepted by the single-cell grammar `^([A-Z]+)(\d+)$/i`. -/
def SingleForm (s : String) : Prop :=
  ∃ c d : List Char,
    s.data = c ++ d ∧
    c ≠ [] ∧ (∀ x ∈ c, isAsciiLetter x = true) ∧
    d ≠ [] ∧ (∀ x ∈ d, isDigitCh x = true)

/-- Index of the first occurrence of `needle` in the haystack (the
unanchored leftmost-match rule of `String.prototype.match`). -/
def subFindFirst (needle : List Char) : List Char → Option Nat
  | [] => if needle.isPrefixOf ([] : List Char) then some 0 else none
  | c :: cs =>
      if needle.isPrefixOf (c :: cs) then some 0
      else (subFindFirst needle cs).map (· + 1)

/-- Index of the last occurrence of `needle` (the split produced by a
greedy `[^>]*` before a literal). -/
def subFindLast (needle : List Char) : List Char → Option Nat
  | [] => if needle.isPrefixOf ([] : List Char) then some 0 else none
  | c :: cs =>
      match subFindLast needle cs with
      | some j => some (j + 1)
      | none => if needle.isPrefixOf (c :: cs) then some 0 else none

/-- Substring test, the semantics of `/pat/.test(s)` and
`String.prototype.includes` for a literal pattern. -/
def containsSub (needle hay : List Char) : Bool :=
  (subFindFirst needle hay).isSome

/-- The literal `r="REF"` interpolated into the cell regex. -/
def needleOf (ref : List Char) : List Char :=
  'r' :: '=' :: '"' :: (ref ++ ['"'])

/-- The literal `</c>`. -/
def closeCellTag : List Char := '<' :: '/' :: 'c' :: '>' :: []

/-- The literal `<v>`. -/
def vOpenTag : List Char := '<' :: 'v' :: '>' :: []

/-- The literal `</v>`. -/
def vCloseTag : List Char := '<' :: '/' :: 'v' :: '>' :: []

/-- The literal `t="s"` (shared-string type attribute). -/
def tSharedAttr : List Char := 't' :: '=' :: '"' :: 's' :: '"' :: []

/-- The literal `s="` (style-index attribute opener). -/
def sAttrOpen : List Char := 's' :: '=' :: '"' :: []

/-- One attempt of the cell regex
`<c[^>]*r="REF"([^>]*)>([\s\S]*?)<\/c>` at the head of `cs`:
after `<c`, everything up to the first `>` is the tag interior (both
`[^>]*` pieces exclude `>`); the greedy first `[^>]*` puts the literal
`r="REF"` at its last occurrence in the interior, capturing the rest of
the interior as group 1; the lazy group 2 runs to the first `</c>` after
the `>`.  Returns `(attrs, innerXml)` on success. -/
def cellMatchAt (ref cs : List Char) : Option (List Char × List Char) :=
  match cs with
  | c1 :: c2 :: rest =>
      if c1 = '<' ∧ c2 = 'c' then
        match subFindFirst ('>' :: []) rest with
        | none => none
        | some g =>
            let inTag := rest.take g
            let afterGt := rest.drop (g + 1)
            match subFindLast (needleOf ref) inTag with
            | none => none
            | some k =>
                let attrs := inTag.drop (k + (needleOf ref).length)
                match subFindFirst closeCellTag afterGt with
                | none => none
                | some j => some (attrs, afterGt.take j)
      else none
  | _ => none

/-- Unanchored leftmost search with the cell regex (source lines 85-89):
try `cellMatchAt` at every position, left to right. -/
def findCell (ref : List Char) : List Char → Option (List Char × List Char)
  | [] => none
  | c :: cs =>
      match cellMatchAt ref (c :: cs) with
      | some r => some r
      | none => findCell ref cs

/-- Search with `/<v>(\d+)<\/v>/` (source line 97): at each position,
`<v>`, a maximal nonempty digit run, then `</v>` immediately. -/
def findVDigits : List Char → Option (List Char)
  | [] => none
  | c :: cs =>
      if vOpenTag.isPrefixOf (c :: cs) then
        let after := (c :: cs).drop 3
        let d := after.takeWhile isDigitCh
        if !d.isEmpty && vCloseTag.isPrefixOf (after.drop d.length) then some d
        else findVDigits cs
      else findVDigits cs

/-- Search with `/<v>([\s\S]*?)<\/v>/` (source line 102): at each
position, `<v>`, then the lazy group runs to the first `</v>`. -/
def findVAny : List Char → Option (List Char)
  | [] => none
  | c :: cs =>
      if vOpenTag.isPrefixOf (c :: cs) then
        match subFindFirst vCloseTag ((c :: cs).drop 3) with
        | some j => some (((c :: cs).drop 3).take j)
        | none => findVAny cs
      else findVAny cs

/-- Search with `/s="(\d+)"/` (source line 115): at each position,
`s="`, a maximal nonempty digit run, then `"`. -/
def findSDigits : List Char → Option (List Char)
  | [] => none
  | c :: cs =>
      if sAttrOpen.isPrefixOf (c :: cs) then
        let after := (c :: cs).drop 3
        let d := after.takeWhile isDigitCh
        if !d.isEmpty && ('"' :: []).isPrefixOf (after.drop d.length) then some d
        else findSDigits cs
      else findSDigits cs

/-- JavaScript whitespace accepted (and trimmed) by `Number(string)`. -/
def isJsWhitespace (c : Char) : Bool :=
  c.toNat = 32 || c.toNat = 9 || c.toNat = 10 || c.toNat = 13 ||
  c.toNat = 11 || c.toNat = 12 || c.toNat = 160 || c.toNat = 65279

/-- Mantissa of a JS decimal literal: `digits`, `digits.digits?` or
`.digits`; at least one digit overall.  Returns the value and rest. -/
def parseMantissa (t : List Char) : Option (ℚ × List Char) :=
  let ip := t.takeWhile isDigitCh
  let r1 := t.dropWhile isDigitCh
  match r1 with
  | '.' :: r =>
      let fp := r.takeWhile isDigitCh
      let r2 := r.dropWhile isDigitCh
      if ip.isEmpty && fp.isEmpty then none
      else some ((digitsToNat ip : ℚ) + (digitsToNat fp : ℚ) / (10 : ℚ) ^ fp.length, r2)
  | _ =>
      if ip.isEmpty then none
      else some ((digitsToNat ip : ℚ), r1)

/-- Optional exponent part `e`/`E`, optional sign, digits.  Returns the
multiplier and rest (`1` when no exponent marker is present). -/
def parseExpPart (t : List Char) : Option (ℚ × List Char) :=
  match t with
  | 'e' :: r | 'E' :: r =>
      let (neg, r1) : Bool × List Char :=
        match r with
        | '+' :: rr => (false, rr)
        | '-' :: rr => (true, rr)
        | _ => (false, r)
      let ds := r1.takeWhile isDigitCh
      let r2 := r1.dropWhile isDigitCh
      if ds.isEmpty then none
      else if neg then some (1 / (10 : ℚ) ^ digitsToNat ds, r2)
      else some ((10 : ℚ) ^ digitsToNat ds, r2)
  | _ => some (1, t)

/-- Optional leading sign of a numeric literal: the negation flag and
the remaining characters. -/
def splitSign : List Char → Bool × List Char
  | '+' :: r => (false, r)
  | '-' :: r => (true, r)
  | t => (false, t)

/-- `Number(string)` on the decimal-literal fragment of its grammar,
with exact rational values: surrounding whitespace is trimmed, the empty
(or all-whitespace) string is `0`, otherwise an optionally signed decimal
mantissa with optional exponent must consume the whole string; `none`
plays the role of `NaN`.  (`Infinity`, hex/octal/binary literals and
binary floating-point rounding are outside the model.) -/
def jsNumber? (cs : List Char) : Option ℚ :=
  let t := ((cs.dropWhile isJsWhitespace).reverse.dropWhile isJsWhitespace).reverse
  if t.isEmpty then some 0
  else
    match parseMantissa (splitSign t).2 with
    | none => none
    | some (m, r1) =>
        match parseExpPart r1 with
        | none => none
        | some (e, r2) =>
            if r2.isEmpty then some ((if (splitSign t).1 then -m else m) * e)
            else none

/-- Days from 1970-01-01 to the given proleptic Gregorian date
(Hinnant's `days_from_civil`, with the C-style truncating division it is
written for). -/
def daysFromCivil (y : ℤ) (m d : ℤ) : ℤ :=
  let y2 := if m ≤ 2 then y - 1 else y
  let era := Int.tdiv (if 0 ≤ y2 then y2 else y2 - 399) 400
  let yoe := y2 - era * 400
  let doy := Int.tdiv (153 * (if 2 < m then m - 3 else m + 9) + 2) 5 + d - 1
  let doe := yoe * 365 + Int.tdiv yoe 4 - Int.tdiv yoe 100 + doy
  era * 146097 + doe - 719468

/-- Proleptic Gregorian date of a day count from 1970-01-01
(Hinnant's `civil_from_days`, with the C-style truncating division it is
written for): year, month, day. -/
def civilFromDays (z : ℤ) : ℤ × ℤ × ℤ :=
  let z2 := z + 719468
  let era := Int.tdiv (if 0 ≤ z2 then z2 else z2 - 146096) 146097
  let doe := z2 - era * 146097
  let yoe := Int.tdiv (doe - Int.tdiv doe 1460 + Int.tdiv doe 36524 - Int.tdiv doe 146096) 365
  let y := yoe + era * 400
  let doy := doe - (365 * yoe + Int.tdiv yoe 4 - Int.tdiv yoe 100)
  let mp := Int.tdiv (5 * doy + 2) 153
  let d := doy - Int.tdiv (153 * mp + 2) 5 + 1
  let m := if mp < 10 then mp + 3 else mp - 9
  (if m ≤ 2 then y + 1 else y, m, d)

/-- `String(n).padStart(2, '0')` for the day and month fields. -/
def pad2 (n : ℤ) : String :=
  if 0 ≤ n ∧ n < 10 then "0" ++ toString n else toString n

/-- `ExcelReaderService.excelDateToString` (source lines 268-278): the
epoch is 30 December 1899 (`new Date(1899, 11, 30)`), `serial * 86400000`
milliseconds are added, and the resulting calendar day is rendered as
`dd/mm/yyyy` with zero-padded day and month.  The model fixes one UTC
offset for both the epoch and the extraction of the calendar fields, so
the day index is `⌊epochDays + serial⌋`. -/
def excelDateToString (serial : ℚ) : String :=
  let excelEpochMs : ℚ := (daysFromCivil 1899 12 30 : ℚ) * 86400000
  let ms : ℚ := excelEpochMs + serial * 86400000
  let day : ℤ := ⌊ms / 86400000⌋
  match civilFromDays day with
  | (y, m, d) => pad2 d ++ "/" ++ pad2 m ++ "/" ++ toString y

/-- Global replacement `/"[^"]*"/g → ''` on the lowercased format code
(source line 243): each quote that has a later closing quote is removed
together with the enclosed segment; a lone unmatched quote stays. -/
def stripQuoted : List Char → List Char
  | [] => []
  | c :: rest =>
      if c = '"' then
        match h : subFindFirst ('"' :: []) rest with
        | some j => stripQuoted (rest.drop (j + 1))
        | none => c :: rest
      else c :: stripQuoted rest
termination_by cs => cs.length
decreasing_by
  · simp [List.length_drop]; omega
  · simp

/-- `d`, `m` or `y` (the `[dmy]` class on the lowercased code). -/
def isDMY (c : Char) : Bool :=
  c = 'd' || c = 'm' || c = 'y'

/-- Lowercase ASCII letter (the `[a-z]` class under the `i` flag on an
already-lowercased string). -/
def isLowerAZ (c : Char) : Bool :=
  97 ≤ c.toNat && c.toNat ≤ 122

/-- Scan for a `[dmy]` character immediately preceded by a non-letter. -/
def dmyAfterBoundary : List Char → Bool
  | a :: b :: rest => (!isLowerAZ a && isDMY b) || dmyAfterBoundary (b :: rest)
  | _ => false

/-- The test `/(^|[^a-z])([dmy]){1,}/i` on the cleaned code: a `[dmy]`
character at the start of the string or after a non-letter. -/
def dateTokenRegex (cleaned : List Char) : Bool :=
  (match cleaned with
   | c :: _ => isDMY c
   | [] => false) || dmyAfterBoundary cleaned

/-- The built-in date format ids of the source (line 233). -/
def builtInDateIds : List Nat := [14, 15, 16, 17, 22]

/-- The built-in percent format ids of the source (line 258). -/
def builtInPercentIds : List Nat := [9, 10]

/-- `ExcelReaderService.isDateFormat` (source lines 231-251): true for a
built-in date id; otherwise, on a present non-empty custom code, true
when the lowercased code with quoted segments stripped has date tokens
(`(^|[^a-z])[dmy]` or a `dd`/`mm`/`yy` substring) and no `%`. -/
def isDateFormat (numFmtId : Nat) (formatCode : Option String) : Bool :=
  if builtInDateIds.contains numFmtId then true
  else
    match formatCode with
    | none => false
    | some fc =>
        if fc.data.isEmpty then false
        else
          let code := fc.data.map Char.toLower
          let cleaned := stripQuoted code
          let hasDateTokens := dateTokenRegex cleaned ||
            containsSub ('d' :: 'd' :: []) cleaned ||
            containsSub ('m' :: 'm' :: []) cleaned ||
            containsSub ('y' :: 'y' :: []) cleaned
          let hasPercent := containsSub ('%' :: []) cleaned
          hasDateTokens && !hasPercent

/-- `ExcelReaderService.isPercentFormat` (source lines 256-263): true for
a built-in percent id; otherwise, on a present non-empty custom code,
true when the raw code contains `%`. -/
def isPercentFormat (numFmtId : Nat) (formatCode : Option String) : Bool :=
  if builtInPercentIds.contains numFmtId then true
  else
    match formatCode with
    | none => false
    | some fc =>
        if fc.data.isEmpty then false
        else containsSub ('%' :: []) fc.data

/-- A resolved cell value: `string | number | null` of the source. -/
inductive CellVal where
  | str (s : String)
  | num (q : ℚ)
  | null
deriving DecidableEq, Repr

/-- The `StylesInfo` record of the source: the positional
`cellXfs`-derived list of number-format ids (indexed by a cell's `s`
attribute) and the custom `numFmtId → formatCode` record. -/
structure StylesInfo where
  cellXfsNumFmtIds : List Nat
  numFmts : List (Nat × String)
deriving DecidableEq, Repr

/-- Lookup in the `numFmts` record. -/
def lookupFmt : List (Nat × String) → Nat → Option String
  | [], _ => none
  | (k, v) :: rest, i => if k = i then some v else lookupFmt rest i

/-- The styles fallback built when `xl/styles.xml` is absent
(source lines 46-49): no style-index mapping, no custom formats. -/
def emptyStyles : StylesInfo := ⟨[], []⟩

/-- The body of `ExcelReaderService.getCellValue` after the cell element
has been located (source lines 92-141): shared-string resolution when
`t="s"` occurs in the attribute capture, otherwise the `<v>` token is
parsed as a number (text is returned verbatim when it is not one), and a
style index, when present and in range, selects date/percent/plain
treatment of the number. -/
def interpretCell (attrs innerXml : List Char) (sharedStrings : List String)
    (styles : StylesInfo) : CellVal :=
  if containsSub tSharedAttr attrs then
    match findVDigits innerXml with
    | some d =>
        match sharedStrings.get? (digitsToNat d) with
        | some s => CellVal.str s
        | none => CellVal.null
    | none => CellVal.null
  else
    match findVAny innerXml with
    | none => CellVal.null
    | some rawText =>
        match jsNumber? rawText with
        | none => CellVal.str (String.mk rawText)
        | some rawNumber =>
            match findSDigits attrs with
            | none => CellVal.num rawNumber
            | some sd =>
                match styles.cellXfsNumFmtIds.get? (digitsToNat sd) with
                | none => CellVal.num rawNumber
                | some numFmtId =>
                    let formatCode := lookupFmt styles.numFmts numFmtId
                    if isDateFormat numFmtId formatCode then
                      CellVal.str (excelDateToString rawNumber)
                    else if isPercentFormat numFmtId formatCode then
                      CellVal.num rawNumber
                    else CellVal.num rawNumber

/-- `ExcelReaderService.getCellValue` (source lines 78-142): locate the
cell element with the requested reference, return `null` when there is
none, otherwise interpret its attributes and inner markup. -/
def getCellValue (sheetXml : String) (cellRef : String)
    (sharedStrings : List String) (styles : StylesInfo) : CellVal :=
  match findCell cellRef.data sheetXml.data with
  | none => CellVal.null
  | some (attrs, innerXml) => interpretCell attrs innerXml sharedStrings styles

/-- A column's row map (`{ [linha: number]: string | number | null }`),
as an insertion-ordered association list. -/
abbrev RowMap := List (Nat × CellVal)

/-- `IntervalosResultado` of the source, as an insertion-ordered
association list from column names to row maps. -/
abbrev IntervalosResultado := List (String × RowMap)

/-- Assignment `rows[r] = v` on a JS object: replace in place when the
key exists, else append. -/
def setRow (rows : RowMap) (r : Nat) (v : CellVal) : RowMap :=
  match rows with
  | [] => (r, v) :: []
  | (r0, v0) :: rest =>
      if r0 = r then (r0, v) :: rest else (r0, v0) :: setRow rest r v

/-- Key lookup in a row map. -/
def lookupRow (rows : RowMap) (r : Nat) : Option CellVal :=
  match rows with
  | [] => none
  | (r0, v0) :: rest => if r0 = r then some v0 else lookupRow rest r

/-- `resultado[col]` access. -/
def getCol? (res : IntervalosResultado) (c : String) : Option RowMap :=
  match res with
  | [] => none
  | (c0, rows) :: rest => if c0 = c then some rows else getCol? rest c

/-- Assignment `resultado[col] = rows`: replace in place when the column
exists, else append. -/
def setCol (res : IntervalosResultado) (c : String) (rows : RowMap) :
    IntervalosResultado :=
  match res with
  | [] => (c, rows) :: []
  | (c0, rows0) :: rest =>
      if c0 = c then (c0, rows) :: rest else (c0, rows0) :: setCol rest c rows

/-- The inner row loop of `lerIntervalos` (source lines 61-69), with the
iteration count made explicit: starting at `row`, perform `n` assignments
`rows[row] = getCellValue(sheetXml, col + row, ...)`. -/
def fillRows (sheetXml : String) (sharedStrings : List String)
    (styles : StylesInfo) (col : String) : Nat → Nat → RowMap → RowMap
  | _, 0, rows => rows
  | row, n + 1, rows =>
      fillRows sheetXml sharedStrings styles col (row + 1) n
        (setRow rows row (getCellValue sheetXml (col ++ toString row) sharedStrings styles))

/-- The extraction loop of `ExcelReaderService.lerIntervalos`
(source lines 51-72), after the three document parts have been fetched
and parsed: each range expression is parsed (a failure aborts the whole
call), the column's existing row map is kept when present (`if
(!resultado[col]) resultado[col] = {}`), and rows `start..end` are
assigned from `getCellValue`. -/
def lerIntervalos (sheetXml : String) (intervalos : List String)
    (sharedStrings : List String) (styles : StylesInfo) :
    Option IntervalosResultado :=
  intervalos.foldlM (fun res intervalo =>
    match parseInterval intervalo with
    | none => none
    | some (col, start, stop) =>
        let rows := (getCol? res col).getD []
        let rows2 := fillRows sheetXml sharedStrings styles col start (stop + 1 - start) rows
        some (setCol res col rows2)) []

/-- `resultado[col][row]` access in a `RangeResult`. -/
def resLookup (res : IntervalosResultado) (c : String) (r : Nat) : Option CellVal :=
  match getCol? res c with
  | none => none
  | some rows => lookupRow rows r

/-- A cell element carrying the requested address, stated declaratively:
the markup decomposes as `… <c ⟨no '>'⟩ r="REF" ⟨no '>'⟩ > inner </c> …`.
This is exactly the language of the cell-location regex
`<c[^>]*r="REF"([^>]*)>([\s\S]*?)<\/c>`. -/
def HasCellElem (s ref : String) : Prop :=
  ∃ pre a b inner post : List Char,
    s.data = pre ++ '<' :: 'c' :: ((a ++ needleOf ref.data ++ b) ++
      '>' :: (inner ++ closeCellTag ++ post)) ∧
    '>' ∉ a ++ needleOf ref.data ++ b

/-! ### Character and list helper lemmas -/

lemma isAsciiLetter_eq_false_of_isDigitCh {c : Char} (h : isDigitCh c = true) :
    isAsciiLetter c = false := by
  simp only [isDigitCh, Bool.and_eq_true, decide_eq_true_eq] at h
  simp only [isAsciiLetter, Bool.or_eq_false_iff, Bool.and_eq_false_iff,
    decide_eq_false_iff_not, not_le]
  omega

lemma isEmpty_false_of_ne {α : Type} {l : List α} (h : l ≠ []) : l.isEmpty = false := by
  cases l with
  | nil => exact absurd rfl h
  | cons a t => rfl

lemma takeWhile_dropWhile_split (p : Char → Bool) (xs ys : List Char)
    (hx : ∀ x ∈ xs, p x = true)
    (hy : ∀ c, ys.head? = some c → p c = false) :
    (xs ++ ys).takeWhile p = xs ∧ (xs ++ ys).dropWhile p = ys := by
  induction xs with
  | nil =>
      simp only [List.nil_append]
      cases ys with
      | nil => simp
      | cons c t =>
          have hc := hy c rfl
          simp [List.takeWhile_cons, List.dropWhile_cons, hc]
  | cons a l ih =>
      have ha : p a = true := hx a (by simp)
      have ih2 := ih (fun x hmem => hx x (by simp [hmem]))
      simp [List.takeWhile_cons, List.dropWhile_cons, ha, ih2.1, ih2.2]

lemma toUpper_toNat (c : Char) :
    (Char.toUpper c).toNat =
      if 97 ≤ c.toNat ∧ c.toNat ≤ 122 then c.toNat - 32 else c.toNat := by
  by_cases h : 97 ≤ c.toNat ∧ c.toNat ≤ 122
  · have hv : (c.toNat - 32).isValidChar := Or.inl (by omega)
    simp only [Char.toUpper, Char.ofNat, dif_pos hv, ge_iff_le, if_pos h]
    rfl
  · simp only [Char.toUpper, ge_iff_le, if_neg h]

lemma isAsciiLetter_of_toUpper_eq {a c : Char} (ha : isAsciiLetter a = true)
    (h : Char.toUpper a = Char.toUpper c) : isAsciiLetter c = true := by
  have h2 : (Char.toUpper a).toNat = (Char.toUpper c).toNat := by rw [h]
  rw [toUpper_toNat, toUpper_toNat] at h2
  simp only [isAsciiLetter, Bool.or_eq_true, Bool.and_eq_true, decide_eq_true_eq] at ha ⊢
  split at h2 <;> split at h2 <;> omega

lemma eqCI_length {a b : List Char} (h : eqCI a b = true) : a.length = b.length := by
  simp only [eqCI, beq_iff_eq] at h
  have h2 := congrArg List.length h
  simpa using h2

lemma eqCI_symm {a b : List Char} (h : eqCI a b = true) : eqCI b a = true := by
  simp only [eqCI, beq_iff_eq] at h ⊢
  exact h.symm

lemma letters_of_eqCI {a b : List Char} (ha : ∀ x ∈ a, isAsciiLetter x = true)
    (h : eqCI a b = true) : ∀ x ∈ b, isAsciiLetter x = true := by
  simp only [eqCI, beq_iff_eq] at h
  intro x hx
  have hx2 : Char.toUpper x ∈ b.map Char.toUpper := List.mem_map_of_mem _ hx
  rw [← h] at hx2
  obtain ⟨y, hy, hyx⟩ := List.mem_map.mp hx2
  exact isAsciiLetter_of_toUpper_eq (ha y hy) hyx

/-! ### Range-expression parser: completeness and soundness -/

lemma matchRangeForm_complete (c1 d1 c2 d2 : List Char)
    (hc1 : c1 ≠ []) (hl1 : ∀ x ∈ c1, isAsciiLetter x = true)
    (hd1 : d1 ≠ []) (hg1 : ∀ x ∈ d1, isDigitCh x = true)
    (hd2 : d2 ≠ []) (hg2 : ∀ x ∈ d2, isDigitCh x = true)
    (hci : eqCI c1 c2 = true) :
    matchRangeForm (c1 ++ d1 ++ '-' :: (c2 ++ d2)) =
      some (String.mk (c1.map Char.toUpper), digitsToNat d1, digitsToNat d2) := by
  have hsplit1 := takeWhile_dropWhile_split isAsciiLetter c1 (d1 ++ '-' :: (c2 ++ d2))
    hl1 (by
      intro c hc
      cases d1 with
      | nil => exact absurd rfl hd1
      | cons x t =>
          simp only [List.cons_append, List.head?_cons, Option.some.injEq] at hc
          subst hc
          exact isAsciiLetter_eq_false_of_isDigitCh (hg1 x (by simp)))
  have hsplit2 := takeWhile_dropWhile_split isDigitCh d1 ('-' :: (c2 ++ d2))
    hg1 (by
      intro c hc
      simp only [List.head?_cons, Option.some.injEq] at hc
      subst hc
      decide)
  have hlen : c1.length = c2.length := eqCI_length hci
  rw [matchRangeForm, List.append_assoc]
  rw [hsplit1.1, hsplit1.2, hsplit2.1, hsplit2.2, isEmpty_false_of_ne hc1,
    isEmpty_false_of_ne hd1, hlen]
  simp [eqCI_symm hci, isEmpty_false_of_ne hd2, List.all_eq_true.mpr hg2,
    List.take_left, List.drop_left]

lemma matchSingleForm_complete (c d : List Char)
    (hc : c ≠ []) (hl : ∀ x ∈ c, isAsciiLetter x = true)
    (hd : d ≠ []) (hg : ∀ x ∈ d, isDigitCh x = true) :
    matchSingleForm (c ++ d) = some (String.mk (c.map Char.toUpper), digitsToNat d) ∧
      matchRangeForm (c ++ d) = none := by
  have hsplit1 := takeWhile_dropWhile_split isAsciiLetter c d
    hl (by
      intro x hx
      cases d with
      | nil => exact absurd rfl hd
      | cons y t =>
          simp only [List.head?_cons, Option.some.injEq] at hx
          subst hx
          exact isAsciiLetter_eq_false_of_isDigitCh (hg y (by simp)))
  have hsplit2 := takeWhile_dropWhile_split isDigitCh d ([] : List Char)
    hg (by intro c hc; simp at hc)
  rw [List.append_nil] at hsplit2
  constructor
  · rw [matchSingleForm]
    rw [hsplit1.1, hsplit1.2, hsplit2.1, hsplit2.2, isEmpty_false_of_ne hc,
      isEmpty_false_of_ne hd]
    simp
  · rw [matchRangeForm]
    rw [hsplit1.1, hsplit1.2, hsplit2.1, hsplit2.2, isEmpty_false_of_ne hc,
      isEmpty_false_of_ne hd]
    simp

lemma ne_nil_of_isEmpty_false {α : Type} {l : List α} (h : l.isEmpty = false) :
    l ≠ [] := by
  cases l with
  | nil => simp at h
  | cons a t => simp

lemma matchRangeForm_sound {cs : List Char} {out : String × Nat × Nat}
    (h : matchRangeForm cs = some out) : RangeForm (String.mk cs) := by
  simp only [matchRangeForm] at h
  split at h
  · exact absurd h (by simp)
  · rename_i hne
    split at h
    · rename_i rest3 hrest
      split at h
      · rename_i hguard
        simp only [Bool.or_eq_true, not_or] at hne
        simp only [Bool.and_eq_true, Bool.not_eq_eq_eq_not, Bool.not_true] at hguard
        obtain ⟨⟨hci, hne2⟩, hall⟩ := hguard
        refine ⟨cs.takeWhile isAsciiLetter,
          (cs.dropWhile isAsciiLetter).takeWhile isDigitCh,
          rest3.take (cs.takeWhile isAsciiLetter).length,
          rest3.drop (cs.takeWhile isAsciiLetter).length,
          ?_, ?_, ?_, ?_, ?_, ?_, ?_, ?_, ?_⟩
        · show cs = _
          rw [List.append_assoc, List.take_append_drop, ← hrest,
            List.takeWhile_append_dropWhile, List.takeWhile_append_dropWhile]
        · exact ne_nil_of_isEmpty_false (by
            rcases h1 : (cs.takeWhile isAsciiLetter).isEmpty
            · rfl
            · exact absurd h1 hne.1)
        · exact fun x hx => List.mem_takeWhile_imp hx
        · exact ne_nil_of_isEmpty_false (by
            rcases h1 : ((cs.dropWhile isAsciiLetter).takeWhile isDigitCh).isEmpty
            · rfl
            · exact absurd h1 hne.2)
        · exact fun x hx => List.mem_takeWhile_imp hx
        · exact letters_of_eqCI (fun x hx => List.mem_takeWhile_imp hx) (eqCI_symm hci)
        · exact ne_nil_of_isEmpty_false hne2
        · exact List.all_eq_true.mp hall
        · exact eqCI_symm hci
      · exact absurd h (by simp)
    · exact absurd h (by simp)

lemma matchSingleForm_sound {cs : List Char} {out : String × Nat}
    (h : matchSingleForm cs = some out) : SingleForm (String.mk cs) := by
  simp only [matchSingleForm] at h
  split at h
  · exact absurd h (by simp)
  · rename_i hne
    simp only [Bool.or_eq_true, not_or, Bool.not_eq_eq_eq_not, Bool.not_true] at hne
    obtain ⟨⟨hc, hd⟩, hr⟩ := hne
    have hc2 : (cs.takeWhile isAsciiLetter).isEmpty = false := by
      rcases h1 : (cs.takeWhile isAsciiLetter).isEmpty
      · rfl
      · exact absurd h1 hc
    have hd2 : ((cs.dropWhile isAsciiLetter).takeWhile isDigitCh).isEmpty = false := by
      rcases h1 : ((cs.dropWhile isAsciiLetter).takeWhile isDigitCh).isEmpty
      · rfl
      · exact absurd h1 hd
    have hrest : (cs.dropWhile isAsciiLetter).dropWhile isDigitCh = [] := by
      have := hr
      simp only [Bool.not_eq_false] at this
      exact List.isEmpty_iff.mp this
    refine ⟨cs.takeWhile isAsciiLetter,
      (cs.dropWhile isAsciiLetter).takeWhile isDigitCh, ?_, ?_, ?_, ?_, ?_⟩
    · show cs = _
      conv_lhs => rw [← List.takeWhile_append_dropWhile isAsciiLetter cs,
        ← List.takeWhile_append_dropWhile isDigitCh (cs.dropWhile isAsciiLetter), hrest,
        List.append_nil]
    · exact ne_nil_of_isEmpty_false hc2
    · exact fun x hx => List.mem_takeWhile_imp hx
    · exact ne_nil_of_isEmpty_false hd2
    · exact fun x hx => List.mem_takeWhile_imp hx

/-- C4: for every string of the range form `COL ROW1 - COL ROW2` whose
two column tokens are textually identical up to case, `parseInterval`
returns the uppercased column with `start = ROW1` and `end = ROW2`; for
every string of the single-cell form `COL ROW` it returns the uppercased
column with `start = end = ROW` (so parsing "h2" yields column "H",
start 2, end 2). -/
theorem c4_parseInterval_forms :
    (∀ c1 d1 c2 d2 : List Char,
      c1 ≠ [] → (∀ x ∈ c1, isAsciiLetter x = true) →
      d1 ≠ [] → (∀ x ∈ d1, isDigitCh x = true) →
      d2 ≠ [] → (∀ x ∈ d2, isDigitCh x = true) →
      eqCI c1 c2 = true →
      parseInterval (String.mk (c1 ++ d1 ++ '-' :: (c2 ++ d2))) =
        some (String.mk (c1.map Char.toUpper), digitsToNat d1, digitsToNat d2)) ∧
    (∀ c d : List Char,
      c ≠ [] → (∀ x ∈ c, isAsciiLetter x = true) →
      d ≠ [] → (∀ x ∈ d, isDigitCh x = true) →
      parseInterval (String.mk (c ++ d)) =
        some (String.mk (c.map Char.toUpper), digitsToNat d, digitsToNat d)) := by
  constructor
  · intro c1 d1 c2 d2 hc1 hl1 hd1 hg1 hd2 hg2 hci
    rw [parseInterval,
      show (String.mk (c1 ++ d1 ++ '-' :: (c2 ++ d2))).data =
        c1 ++ d1 ++ '-' :: (c2 ++ d2) from rfl,
      matchRangeForm_complete c1 d1 c2 d2 hc1 hl1 hd1 hg1 hd2 hg2 hci]
  · intro c d hc hl hd hg
    have hm := matchSingleForm_complete c d hc hl hd hg
    rw [parseInterval, show (String.mk (c ++ d)).data = c ++ d from rfl, hm.2, hm.1]

/-- C4 witness: concrete instances of both grammar forms, including the
case-normalisation example `parse "h2" = ("H", 2, 2)`. -/
theorem c4_parseInterval_forms_witness :
    parseInterval "H12-h3" = some ("H", 12, 3) ∧
      parseInterval "h2" = some ("H", 2, 2) := by
  constructor
  · exact c4_parseInterval_forms.1 ['H'] ['1', '2'] ['h'] ['3'] (by decide) (by decide)
      (by decide) (by decide) (by decide) (by decide) (by decide)
  · exact c4_parseInterval_forms.2 ['h'] ['2'] (by decide) (by decide) (by decide)
      (by decide)

/-- C5: `parseInterval` fails (throws `Intervalo inválido`) exactly when
the input matches neither the range grammar nor the single-cell grammar;
in particular a range-form string with differing column tokens such as
"H12-I13" fails, while no other structural condition fails — e.g.
"H5-H2" with start > end still parses. -/
theorem c5_parseInterval_none_iff :
    (∀ s : String, parseInterval s = none ↔ ¬ (RangeForm s ∨ SingleForm s)) ∧
      parseInterval "H12-I13" = none ∧
      parseInterval "H5-H2" = some ("H", 5, 2) := by
  refine ⟨fun s => ⟨?_, ?_⟩, by decide, by decide⟩
  · intro hn hor
    rcases hor with hr | hs
    · obtain ⟨c1, d1, c2, d2, hdec, hc1, hl1, hd1, hg1, _hl2, hd2, hg2, hci⟩ := hr
      rw [parseInterval, hdec,
        matchRangeForm_complete c1 d1 c2 d2 hc1 hl1 hd1 hg1 hd2 hg2 hci] at hn
      simp at hn
    · obtain ⟨c, d, hdec, hc, hl, hd, hg⟩ := hs
      have hm := matchSingleForm_complete c d hc hl hd hg
      rw [parseInterval, hdec, hm.2, hm.1] at hn
      simp at hn
  · intro hnor
    cases hp : parseInterval s with
    | none => rfl
    | some out =>
        exfalso
        apply hnor
        rw [parseInterval] at hp
        cases hm : matchRangeForm s.data with
        | some r => exact Or.inl (matchRangeForm_sound hm)
        | none =>
            rw [hm] at hp
            cases hms : matchSingleForm s.data with
            | some r2 => exact Or.inr (matchSingleForm_sound hms)
            | none => rw [hms] at hp; exact absurd hp (by simp)

/-! ### Cell-location search: soundness -/

lemma subFindFirst_hit {needle hay : List Char} {j : Nat}
    (h : subFindFirst needle hay = some j) :
    needle.isPrefixOf (hay.drop j) = true := by
  induction hay generalizing j with
  | nil =>
      simp only [subFindFirst] at h
      split at h
      · rename_i hp
        simp only [Option.some.injEq] at h
        subst h
        simpa using hp
      · exact Option.noConfusion h
  | cons c cs ih =>
      simp only [subFindFirst] at h
      split at h
      · rename_i hp
        simp only [Option.some.injEq] at h
        subst h
        simpa using hp
      · cases hm : subFindFirst needle cs with
        | none => rw [hm] at h; exact Option.noConfusion h
        | some j2 =>
            rw [hm] at h
            simp at h
            subst h
            simpa using ih hm

lemma subFindLast_hit {needle hay : List Char} {j : Nat}
    (h : subFindLast needle hay = some j) :
    needle.isPrefixOf (hay.drop j) = true := by
  induction hay generalizing j with
  | nil =>
      simp only [subFindLast] at h
      split at h
      · rename_i hp
        simp only [Option.some.injEq] at h
        subst h
        simpa using hp
      · exact Option.noConfusion h
  | cons c cs ih =>
      simp only [subFindLast] at h
      cases hm : subFindLast needle cs with
      | some j2 =>
          rw [hm] at h
          simp only [Option.some.injEq] at h
          subst h
          simpa using ih hm
      | none =>
          rw [hm] at h
          simp only at h
          split at h
          · rename_i hp
            simp only [Option.some.injEq] at h
            subst h
            simpa using hp
          · exact Option.noConfusion h

lemma decomp_of_prefix_drop {needle hay : List Char} {j : Nat}
    (h : needle.isPrefixOf (hay.drop j) = true) :
    hay = hay.take j ++ needle ++ (hay.drop j).drop needle.length := by
  obtain ⟨t, ht⟩ := List.isPrefixOf_iff_prefix.mp h
  calc hay = hay.take j ++ hay.drop j := (List.take_append_drop j hay).symm
    _ = hay.take j ++ (needle ++ t) := by rw [ht]
    _ = hay.take j ++ needle ++ t := by rw [List.append_assoc]
    _ = hay.take j ++ needle ++ (needle ++ t).drop needle.length := by
          rw [List.drop_left]
    _ = hay.take j ++ needle ++ (hay.drop j).drop needle.length := by rw [ht]

lemma gt_not_mem_take {hay : List Char} {g : Nat}
    (h : subFindFirst ('>' :: []) hay = some g) : '>' ∉ hay.take g := by
  induction hay generalizing g with
  | nil => simp
  | cons c cs ih =>
      simp only [subFindFirst] at h
      split at h
      · rename_i hp
        cases h
        simp
      · rename_i hp
        have hc : c ≠ '>' := by
          intro he
          subst he
          exact hp (by simp [List.isPrefixOf])
        cases hm : subFindFirst ('>' :: []) cs with
        | none => rw [hm] at h; exact Option.noConfusion h
        | some g2 =>
            rw [hm] at h
            simp at h
            subst h
            rw [List.take_cons (by omega)]
            simp only [List.mem_cons, not_or]
            exact ⟨fun he => hc he.symm, by simpa using ih hm⟩

lemma cellMatchAt_sound {ref cs attrs innerXml : List Char}
    (h : cellMatchAt ref cs = some (attrs, innerXml)) :
    ∃ a post : List Char,
      cs = '<' :: 'c' :: ((a ++ needleOf ref ++ attrs) ++
        '>' :: (innerXml ++ closeCellTag ++ post)) ∧
      '>' ∉ a ++ needleOf ref ++ attrs := by
  cases cs with
  | nil => exact Option.noConfusion h
  | cons c1 cs1 =>
  cases cs1 with
  | nil => exact Option.noConfusion h
  | cons c2 rest =>
  rw [cellMatchAt] at h
  split at h
  case isFalse => exact Option.noConfusion h
  case isTrue hguard =>
  obtain ⟨hg1, hg2⟩ := hguard
  subst hg1
  subst hg2
  · cases hg : subFindFirst ('>' :: []) rest with
    | none => rw [hg] at h; simp at h
    | some g =>
        rw [hg] at h
        simp only at h
        cases hk : subFindLast (needleOf ref) (rest.take g) with
        | none => rw [hk] at h; simp at h
        | some k =>
            rw [hk] at h
            simp only at h
            cases hj : subFindFirst closeCellTag (rest.drop (g + 1)) with
            | none => rw [hj] at h; simp at h
            | some j =>
                rw [hj] at h
                simp only [Option.some.injEq, Prod.mk.injEq] at h
                obtain ⟨hattrs, hinner⟩ := h
                have hrest : rest = rest.take g ++ ('>' :: []) ++ rest.drop (g + 1) := by
                  have hd := decomp_of_prefix_drop (subFindFirst_hit hg)
                  simpa [List.drop_drop] using hd
                have hin : rest.take g =
                    (rest.take g).take k ++ needleOf ref ++ attrs := by
                  have hd := decomp_of_prefix_drop (subFindLast_hit hk)
                  rw [List.drop_drop, hattrs] at hd
                  exact hd
                have hafter : rest.drop (g + 1) =
                    innerXml ++ closeCellTag ++
                      ((rest.drop (g + 1)).drop j).drop closeCellTag.length := by
                  have hd := decomp_of_prefix_drop (subFindFirst_hit hj)
                  rw [hinner] at hd
                  exact hd
                refine ⟨(rest.take g).take k,
                  ((rest.drop (g + 1)).drop j).drop closeCellTag.length, ?_, ?_⟩
                · have hfull : rest = ((rest.take g).take k ++ needleOf ref ++ attrs) ++
                      '>' :: (innerXml ++ closeCellTag ++
                        ((rest.drop (g + 1)).drop j).drop closeCellTag.length) := by
                    conv_lhs => rw [hrest, hin, hafter]
                    simp [List.append_assoc]
                  exact congrArg (fun l => '<' :: 'c' :: l) hfull
                · rw [← hin]
                  exact gt_not_mem_take hg

lemma findCell_sound {ref s attrs innerXml : List Char}
    (h : findCell ref s = some (attrs, innerXml)) :
    ∃ pre a post : List Char,
      s = pre ++ '<' :: 'c' :: ((a ++ needleOf ref ++ attrs) ++
        '>' :: (innerXml ++ closeCellTag ++ post)) ∧
      '>' ∉ a ++ needleOf ref ++ attrs := by
  induction s with
  | nil => simp [findCell] at h
  | cons c cs ih =>
      rw [findCell] at h
      cases hm : cellMatchAt ref (c :: cs) with
      | some r =>
          rw [hm] at h
          cases h
          obtain ⟨a, post, hdec, hgt⟩ := cellMatchAt_sound hm
          exact ⟨[], a, post, by simpa using hdec, hgt⟩
      | none =>
          rw [hm] at h
          obtain ⟨pre, a, post, hdec, hgt⟩ := ih h
          exact ⟨c :: pre, a, post, by simp [hdec], hgt⟩

/-- C6: for every worksheet markup and every address, if no cell element
in the markup carries that address (no decomposition in the language of
the cell-location regex exists), `getCellValue` returns the empty
sentinel `null` — and, being a total function, never throws. -/
theorem c6_no_cell_gives_null (sheetXml addr : String)
    (ss : List String) (st : StylesInfo)
    (h : ¬ HasCellElem sheetXml addr) :
    getCellValue sheetXml addr ss st = CellVal.null := by
  cases hf : findCell addr.data sheetXml.data with
  | none => rw [getCellValue, hf]
  | some r =>
      exfalso
      apply h
      obtain ⟨attrs, innerXml⟩ := r
      obtain ⟨pre, a, post, hdec, hgt⟩ := findCell_sound hf
      exact ⟨pre, a, attrs, innerXml, post, hdec, hgt⟩

/-- C6 witness: a worksheet with no cell elements at all resolves any
address to `null`. -/
theorem c6_no_cell_gives_null_witness :
    getCellValue "" "A1" [] emptyStyles = CellVal.null :=
  c6_no_cell_gives_null "" "A1" [] emptyStyles (by
    rintro ⟨pre, a, b, innerXml, post, hdec, -⟩
    rw [show ("" : String).data = [] from rfl] at hdec
    simp [List.append_eq_nil] at hdec)

/-! ### Concrete numeric-literal and date evaluations -/

lemma jsNumber_seven : jsNumber? ('7' :: []) = some 7 := by
  have h3 : parseMantissa ('7' :: []) = some ((7 : ℚ), []) := by
    simp only [parseMantissa,
      show ('7' :: []).takeWhile isDigitCh = '7' :: [] from by decide,
      show ('7' :: []).dropWhile isDigitCh = ([] : List Char) from by decide,
      show digitsToNat ('7' :: []) = 7 from by decide]
    norm_num
  simp only [jsNumber?,
    show ((('7' :: []).dropWhile isJsWhitespace).reverse.dropWhile
      isJsWhitespace).reverse = '7' :: [] from by decide,
    show splitSign ('7' :: []) = (false, '7' :: []) from by decide, h3,
    show parseExpPart ([] : List Char) = some (1, []) from rfl]
  norm_num

lemma jsNumber_one : jsNumber? ('1' :: []) = some 1 := by
  have h3 : parseMantissa ('1' :: []) = some ((1 : ℚ), []) := by
    simp only [parseMantissa,
      show ('1' :: []).takeWhile isDigitCh = '1' :: [] from by decide,
      show ('1' :: []).dropWhile isDigitCh = ([] : List Char) from by decide,
      show digitsToNat ('1' :: []) = 1 from by decide]
    norm_num
  simp only [jsNumber?,
    show ((('1' :: []).dropWhile isJsWhitespace).reverse.dropWhile
      isJsWhitespace).reverse = '1' :: [] from by decide,
    show splitSign ('1' :: []) = (false, '1' :: []) from by decide, h3,
    show parseExpPart ([] : List Char) = some (1, []) from rfl]
  norm_num

lemma jsNumber_half : jsNumber? ('0' :: '.' :: '5' :: []) = some (1 / 2) := by
  have h3 : parseMantissa ('0' :: '.' :: '5' :: []) = some ((1 / 2 : ℚ), []) := by
    simp only [parseMantissa,
      show ('0' :: '.' :: '5' :: []).takeWhile isDigitCh = '0' :: [] from by decide,
      show ('0' :: '.' :: '5' :: []).dropWhile isDigitCh =
        '.' :: '5' :: [] from by decide,
      show ('5' :: []).takeWhile isDigitCh = '5' :: [] from by decide,
      show ('5' :: []).dropWhile isDigitCh = ([] : List Char) from by decide,
      show digitsToNat ('0' :: []) = 0 from by decide,
      show digitsToNat ('5' :: []) = 5 from by decide]
    norm_num
  simp only [jsNumber?,
    show ((('0' :: '.' :: '5' :: []).dropWhile isJsWhitespace).reverse.dropWhile
      isJsWhitespace).reverse = '0' :: '.' :: '5' :: [] from by decide,
    show splitSign ('0' :: '.' :: '5' :: []) =
      (false, '0' :: '.' :: '5' :: []) from by decide, h3,
    show parseExpPart ([] : List Char) = some (1, []) from rfl]
  norm_num

/-- The day index computed by `excelDateToString` for an integral serial:
the epoch day of 30 December 1899 (day -25569 of the Unix era) plus the
serial. -/
lemma excelDate_day_of_intCast (n : ℤ) :
    ⌊(((daysFromCivil 1899 12 30 : ℤ) : ℚ) * 86400000 + (n : ℚ) * 86400000) /
      86400000⌋ = -25569 + n := by
  rw [show daysFromCivil 1899 12 30 = -25569 from by decide]
  rw [show ((-25569 : ℤ) : ℚ) * 86400000 + (n : ℚ) * 86400000 =
    ((-25569 + n : ℤ) : ℚ) * 86400000 by push_cast; ring]
  rw [mul_div_assoc]
  norm_num

lemma excelDateToString_intCast (n : ℤ) :
    excelDateToString (n : ℚ) =
      (match civilFromDays (-25569 + n) with
       | (y, m, d) => pad2 d ++ "/" ++ pad2 m ++ "/" ++ toString y) := by
  simp only [excelDateToString, excelDate_day_of_intCast n]

lemma excelDate_one : excelDateToString 1 = "31/12/1899" := by
  have h := excelDateToString_intCast 1
  norm_num at h
  rw [h]
  decide

/-- C7: for every located cell that is marked as a shared-string
reference (`t="s"` occurs in the attribute capture), if the numeric
pointer is absent or at least the shared-string table's length (outside
`[0, len)`; the `\d+` capture can never be negative), `getCellValue`
returns the empty sentinel `null` rather than an error. -/
theorem c7_shared_string_out_of_range_null
    (sheetXml cellRef : String) (ss : List String) (st : StylesInfo)
    (attrs innerXml : List Char)
    (hf : findCell cellRef.data sheetXml.data = some (attrs, innerXml))
    (hs : containsSub tSharedAttr attrs = true)
    (hidx : ∀ d, findVDigits innerXml = some d → ss.length ≤ digitsToNat d) :
    getCellValue sheetXml cellRef ss st = CellVal.null := by
  simp only [getCellValue, hf, interpretCell, hs, if_true]
  cases hd : findVDigits innerXml with
  | none => rfl
  | some d => simp [List.getElem?_eq_none (hidx d hd)]

/-- C7 witness: pointer 3 into a two-element shared-string table
resolves to `null`. -/
theorem c7_shared_string_out_of_range_null_witness :
    getCellValue "<c r=\"A1\" t=\"s\"><v>3</v></c>" "A1" ["a", "b"] emptyStyles =
      CellVal.null := by
  refine c7_shared_string_out_of_range_null _ _ _ _ (" t=\"s\"".data) ("<v>3</v>".data)
    (by decide) (by decide) ?_
  intro d hd
  have hd2 : some ('3' :: []) = some d := hd
  cases hd2
  decide

/-- C8: for every located numeric (non-shared-string) cell whose style
index is out of range of the positional style-index list — which covers
the empty table built when the styles part is absent — `getCellValue`
returns the stored number verbatim and, being total, never raises. -/
theorem c8_style_out_of_range_plain_number
    (sheetXml cellRef : String) (ss : List String) (st : StylesInfo)
    (attrs innerXml rawText sd : List Char) (q : ℚ)
    (hf : findCell cellRef.data sheetXml.data = some (attrs, innerXml))
    (hns : containsSub tSharedAttr attrs = false)
    (hv : findVAny innerXml = some rawText)
    (hq : jsNumber? rawText = some q)
    (hsd : findSDigits attrs = some sd)
    (hrange : st.cellXfsNumFmtIds.length ≤ digitsToNat sd) :
    getCellValue sheetXml cellRef ss st = CellVal.num q := by
  simp only [getCellValue, hf, interpretCell, hns, Bool.false_eq_true, if_false, hv, hq,
    hsd, List.get?_eq_none.mpr hrange]

/-- C8 witness: style index 5 against the empty style table (the
missing-styles fallback) leaves the stored number 7 unchanged. -/
theorem c8_style_out_of_range_plain_number_witness :
    getCellValue "<c r=\"A1\" s=\"5\"><v>7</v></c>" "A1" [] emptyStyles =
      CellVal.num 7 := by
  exact c8_style_out_of_range_plain_number _ _ _ _ (" s=\"5\"".data) ("<v>7</v>".data)
    ('7' :: []) ('5' :: []) 7 (by decide) (by decide) (by decide) jsNumber_seven
    (by decide) (by decide)

/-- C10: for every located non-shared-string cell whose value element is
present but empty and which carries no style attribute, `getCellValue`
returns the number 0 (not `null`, not empty text), because the empty
token parses as the number 0 (`Number("") = 0`). -/
theorem c10_empty_token_resolves_zero
    (sheetXml cellRef : String) (ss : List String) (st : StylesInfo)
    (attrs innerXml : List Char)
    (hf : findCell cellRef.data sheetXml.data = some (attrs, innerXml))
    (hns : containsSub tSharedAttr attrs = false)
    (hv : findVAny innerXml = some [])
    (hsd : findSDigits attrs = none) :
    getCellValue sheetXml cellRef ss st = CellVal.num 0 := by
  simp only [getCellValue, hf, interpretCell, hns, Bool.false_eq_true, if_false, hv,
    show jsNumber? ([] : List Char) = some 0 from rfl, hsd]

/-- C10 witness: the cell `<c r="A1"><v></v></c>` resolves to the
number 0. -/
theorem c10_empty_token_resolves_zero_witness :
    getCellValue "<c r=\"A1\"><v></v></c>" "A1" [] emptyStyles = CellVal.num 0 :=
  c10_empty_token_resolves_zero _ _ _ _ [] ("<v></v>".data)
    (by decide) (by decide) (by decide) (by decide)

/-! ### Format classification -/

lemma toLower_toNat (c : Char) :
    (Char.toLower c).toNat =
      if 65 ≤ c.toNat ∧ c.toNat ≤ 90 then c.toNat + 32 else c.toNat := by
  by_cases h : 65 ≤ c.toNat ∧ c.toNat ≤ 90
  · have hv : (c.toNat + 32).isValidChar := by
      left
      have := c.val.toBitVec.isLt
      simp only [Char.toNat] at h ⊢
      omega
    simp only [Char.toLower, Char.ofNat, dif_pos hv, ge_iff_le, if_pos h]
    rfl
  · simp only [Char.toLower, ge_iff_le, if_neg h]

lemma eq_of_toNat_eq {a b : Char} (h : a.toNat = b.toNat) : a = b :=
  Char.eq_of_val_eq (UInt32.ext h)

lemma toLower_eq_self_of_not_lower {d : Char}
    (hd : ¬ (97 ≤ d.toNat ∧ d.toNat ≤ 122)) :
    ∀ c : Char, Char.toLower c = d → c = d := by
  intro c hc
  apply eq_of_toNat_eq
  have h2 := congrArg Char.toNat hc
  rw [toLower_toNat] at h2
  split at h2 <;> omega

lemma containsSub_singleton (ch : Char) (hay : List Char) :
    containsSub (ch :: []) hay = true ↔ ch ∈ hay := by
  induction hay with
  | nil => simp [containsSub, subFindFirst, List.isPrefixOf]
  | cons c cs ih =>
      by_cases h : c = ch
      · subst h
        simp [containsSub, subFindFirst, List.isPrefixOf]
      · have hp : (ch :: []).isPrefixOf (c :: cs) = false := by
          simp [List.isPrefixOf]
          intro he
          exact absurd he.symm h
        simp only [containsSub, subFindFirst, hp, Bool.false_eq_true, if_false] at ih ⊢
        cases hsf : subFindFirst (ch :: []) cs with
        | none =>
            rw [hsf] at ih
            simp at ih ⊢
            exact ⟨fun he => h he.symm, ih⟩
        | some j =>
            rw [hsf] at ih
            simp at ih ⊢
            exact Or.inr ih

lemma stripQuoted_of_no_quote {cs : List Char} (h : '"' ∉ cs) :
    stripQuoted cs = cs := by
  induction cs with
  | nil => simp [stripQuoted]
  | cons c rest ih =>
      have hcne : c = '"' → False := by
        intro he
        subst he
        exact h (List.mem_cons_self _ _)
      rw [stripQuoted]
      rw [if_neg hcne]
      rw [ih (fun hm => h (List.mem_cons_of_mem c hm))]

/-- C9 counterexample: a cell format with the built-in date id 14 and the
custom code "0%" is classified as both a date format and a percent
format, refuting the claim that the two classifications are exclusive for
every id and code. -/
theorem c9_counterexample :
    isDateFormat 14 (some "0%") = true ∧ isPercentFormat 14 (some "0%") = true := by
  constructor
  · decide
  · decide

/-- C9 (amended): for every number-format id outside both built-in sets
({14,15,16,17,22} and {9,10}) and every custom format code containing no
double-quote character, `isDateFormat` and `isPercentFormat` are never
both true: an unquoted `%` in the code makes the percent classification
hold and simultaneously blocks the date heuristic. -/
theorem c9_amended_percent_excludes_date (i : Nat) (code : Option String)
    (hd : builtInDateIds.contains i = false)
    (hp : builtInPercentIds.contains i = false)
    (hq : ∀ fc, code = some fc → '"' ∉ fc.data) :
    ¬ (isDateFormat i code = true ∧ isPercentFormat i code = true) := by
  rintro ⟨hdate, hpct⟩
  cases code with
  | none =>
      simp only [isPercentFormat, hp, Bool.false_eq_true, if_false] at hpct
  | some fc =>
      simp only [isPercentFormat, hp, Bool.false_eq_true, if_false] at hpct
      simp only [isDateFormat, hd, Bool.false_eq_true, if_false] at hdate
      by_cases he : fc.data.isEmpty
      · rw [if_pos he] at hpct
        exact Bool.noConfusion hpct
      · rw [if_neg he] at hpct hdate
        have hmem : '%' ∈ fc.data := (containsSub_singleton '%' fc.data).mp hpct
        have hmem2 : '%' ∈ fc.data.map Char.toLower :=
          List.mem_map.mpr ⟨'%', hmem, by decide⟩
        have hnoq : '"' ∉ fc.data.map Char.toLower := by
          intro hmq
          obtain ⟨c, hc, hcq⟩ := List.mem_map.mp hmq
          have : c = '"' := toLower_eq_self_of_not_lower (by decide) c hcq
          exact hq fc rfl (this ▸ hc)
        rw [stripQuoted_of_no_quote hnoq] at hdate
        rw [(containsSub_singleton '%' (fc.data.map Char.toLower)).mpr hmem2] at hdate
        simp at hdate

/-- C9 amended witness: the custom id 164 with code "dd%" is percent but
not date. -/
theorem c9_amended_percent_excludes_date_witness :
    ¬ (isDateFormat 164 (some "dd%") = true ∧
        isPercentFormat 164 (some "dd%") = true) :=
  c9_amended_percent_excludes_date 164 (some "dd%") (by decide) (by decide)
    (by intro fc h; cases h; decide)

/-! ### Date-cell resolution -/

/-- Resolving the one-cell worksheet `<c r="A1" s="0"><v>1</v></c>`
against a style table whose single entry is classified as a date format
renders the stored serial 1 through `excelDateToString`. -/
lemma date_cell_eval (fmtId : Nat) (fmts : List (Nat × String))
    (hdate : isDateFormat fmtId (lookupFmt fmts fmtId) = true) :
    getCellValue "<c r=\"A1\" s=\"0\"><v>1</v></c>" "A1" []
      ⟨fmtId :: [], fmts⟩ = CellVal.str (excelDateToString 1) := by
  simp only [getCellValue,
    show findCell ("A1".data) ("<c r=\"A1\" s=\"0\"><v>1</v></c>".data) =
      some ((" s=\"0\"".data), ("<v>1</v>".data)) from by decide,
    interpretCell,
    show containsSub tSharedAttr (" s=\"0\"".data) = false from by decide,
    Bool.false_eq_true, if_false,
    show findVAny ("<v>1</v>".data) = some ('1' :: []) from by decide,
    jsNumber_one,
    show findSDigits (" s=\"0\"".data) = some ('0' :: []) from by decide,
    show digitsToNat ('0' :: []) = 0 from by decide,
    show (fmtId :: []).get? 0 = some fmtId from rfl,
    hdate, if_true]

/-- C2 counterexample: a cell with number-format id 14 and stored serial
1 resolves to "31/12/1899", not to the format family's day-1 date
"01/01/1900" that the claim requires. -/
theorem c2_counterexample_serial_one :
    getCellValue "<c r=\"A1\" s=\"0\"><v>1</v></c>" "A1" [] ⟨14 :: [], []⟩ =
      CellVal.str "31/12/1899" ∧
    CellVal.str "31/12/1899" ≠ CellVal.str "01/01/1900" := by
  constructor
  · rw [date_cell_eval 14 [] (by decide), excelDate_one]
  · decide

/-- C2 (amended): for every number-format id in {14,15,16,17,22}, a cell
with stored serial 1 resolves to "31/12/1899" — one day before the
nominal day 1 — because the conversion adds `serial * 86400000`
milliseconds to the epoch 30 December 1899 (serial 0 ↦ 30/12/1899,
serial 1 ↦ 31/12/1899, serial 2 ↦ 01/01/1900), an epoch chosen so that
serials from 61 on (1 March 1900 onward) carry the true calendar date
(serial 61 ↦ 01/03/1900). -/
theorem c2_amended_serial_one_maps_one_day_early :
    (∀ fmtId, fmtId ∈ builtInDateIds →
      getCellValue "<c r=\"A1\" s=\"0\"><v>1</v></c>" "A1" [] ⟨fmtId :: [], []⟩ =
        CellVal.str "31/12/1899") ∧
    excelDateToString 0 = "30/12/1899" ∧
    excelDateToString 1 = "31/12/1899" ∧
    excelDateToString 2 = "01/01/1900" ∧
    excelDateToString 61 = "01/03/1900" := by
  refine ⟨?_, ?_, excelDate_one, ?_, ?_⟩
  · intro fmtId hmem
    have hc : builtInDateIds.contains fmtId = true := by
      simp only [builtInDateIds, List.mem_cons, List.not_mem_nil, or_false] at hmem
      rcases hmem with h | h | h | h | h <;> (subst h; decide)
    have hone : isDateFormat fmtId (lookupFmt [] fmtId) = true := by
      simp only [isDateFormat, hc, if_true]
    rw [date_cell_eval fmtId [] hone, excelDate_one]
  · have h := excelDateToString_intCast 0
    norm_num at h
    rw [h]
    decide
  · have h := excelDateToString_intCast 2
    norm_num at h
    rw [h]
    decide
  · have h := excelDateToString_intCast 61
    norm_num at h
    rw [h]
    decide

/-- C2 amended witness: the instance at id 14. -/
theorem c2_amended_serial_one_maps_one_day_early_witness :
    getCellValue "<c r=\"A1\" s=\"0\"><v>1</v></c>" "A1" [] ⟨14 :: [], []⟩ =
      CellVal.str "31/12/1899" :=
  c2_amended_serial_one_maps_one_day_early.1 14 (by decide)

/-- C3 counterexample: a numeric cell whose custom format code "0%"
contains `%` but whose id is the built-in date id 14 is converted as a
date ("31/12/1899"), not returned unchanged as the claim requires — the
date check runs first and wins. -/
theorem c3_counterexample_percent_code_date_id :
    getCellValue "<c r=\"A1\" s=\"0\"><v>1</v></c>" "A1" []
        ⟨14 :: [], (14, "0%") :: []⟩ = CellVal.str "31/12/1899" ∧
    CellVal.str "31/12/1899" ≠ CellVal.num 1 := by
  constructor
  · rw [date_cell_eval 14 ((14, "0%") :: []) (by decide), excelDate_one]
  · decide

/-- C3 (amended): for every located numeric cell whose resolved
number-format id is 9 or 10, or whose custom format code contains `%`,
resolution returns the stored number unchanged (no multiplication by
100) **provided** the format is not classified as a date — the date
check precedes the percent check and takes precedence. -/
theorem c3_amended_percent_returns_number_unchanged
    (sheetXml cellRef : String) (ss : List String) (st : StylesInfo)
    (attrs innerXml rawText sd : List Char) (q : ℚ) (fmtId : Nat)
    (hf : findCell cellRef.data sheetXml.data = some (attrs, innerXml))
    (hns : containsSub tSharedAttr attrs = false)
    (hv : findVAny innerXml = some rawText)
    (hq : jsNumber? rawText = some q)
    (hsd : findSDigits attrs = some sd)
    (hfmt : st.cellXfsNumFmtIds.get? (digitsToNat sd) = some fmtId)
    (_hcond : builtInPercentIds.contains fmtId = true ∨
      (∃ fc, lookupFmt st.numFmts fmtId = some fc ∧ '%' ∈ fc.data))
    (hnd : isDateFormat fmtId (lookupFmt st.numFmts fmtId) = false) :
    getCellValue sheetXml cellRef ss st = CellVal.num q := by
  simp only [getCellValue, hf, interpretCell, hns, Bool.false_eq_true, if_false, hv, hq,
    hsd, hfmt, hnd, ite_self]

/-- C3 amended witness: a cell storing 0.5 with percent id 9 resolves to
the fraction 1/2 itself. -/
theorem c3_amended_percent_returns_number_unchanged_witness :
    getCellValue "<c r=\"A1\" s=\"0\"><v>0.5</v></c>" "A1" [] ⟨9 :: [], []⟩ =
      CellVal.num (1 / 2) :=
  c3_amended_percent_returns_number_unchanged _ _ _ _
    (" s=\"0\"".data) ("<v>0.5</v>".data) ('0' :: '.' :: '5' :: []) ('0' :: [])
    (1 / 2) 9 (by decide) (by decide) (by decide) jsNumber_half (by decide)
    (by decide) (Or.inl (by decide)) (by decide)

/-! ### Range extraction: merge semantics -/

lemma lookupRow_setRow (rows : RowMap) (r : Nat) (v : CellVal) (x : Nat) :
    lookupRow (setRow rows r v) x = if x = r then some v else lookupRow rows x := by
  induction rows with
  | nil =>
      by_cases h : x = r
      · subst h
        simp [setRow, lookupRow]
      · have h2 : ¬ r = x := fun he => h he.symm
        simp [setRow, lookupRow, h, h2]
  | cons p rest ih =>
      obtain ⟨r0, v0⟩ := p
      simp only [setRow]
      by_cases h0 : r0 = r
      · subst h0
        by_cases hx : x = r0
        · subst hx
          simp [lookupRow]
        · have h2 : ¬ r0 = x := fun he => hx he.symm
          simp [lookupRow, hx, h2]
      · simp only [if_neg h0, lookupRow]
        by_cases hx : r0 = x
        · subst hx
          simp [h0]
        · simp [hx, ih]

lemma lookupRow_fillRows (sheetXml : String) (ss : List String) (st : StylesInfo)
    (col : String) (n : Nat) :
    ∀ (row0 : Nat) (rows : RowMap) (r : Nat),
      lookupRow (fillRows sheetXml ss st col row0 n rows) r =
        if row0 ≤ r ∧ r < row0 + n then
          some (getCellValue sheetXml (col ++ toString r) ss st)
        else lookupRow rows r := by
  induction n with
  | zero =>
      intro row0 rows r
      rw [fillRows, if_neg (by omega)]
  | succ n ih =>
      intro row0 rows r
      rw [fillRows, ih (row0 + 1) _ r, lookupRow_setRow]
      by_cases h1 : row0 + 1 ≤ r ∧ r < row0 + 1 + n
      · rw [if_pos h1, if_pos (by omega)]
      · rw [if_neg h1]
        by_cases h2 : r = row0
        · rw [if_pos h2, if_pos (by omega), h2]
        · rw [if_neg h2, if_neg (by omega)]

lemma getCol?_setCol_same (res : IntervalosResultado) (c : String) (rows : RowMap) :
    getCol? (setCol res c rows) c = some rows := by
  induction res with
  | nil => simp [setCol, getCol?]
  | cons p rest ih =>
      obtain ⟨c0, rows0⟩ := p
      simp only [setCol]
      by_cases h : c0 = c
      · rw [if_pos h]
        simp only [getCol?, if_pos h]
      · rw [if_neg h]
        simp only [getCol?, if_neg h, ih]

/-- C1: for every extraction call whose range list consists of two range
expressions on the same column, the result maps that column to exactly
the union of the rows of the two ranges — rows filled by the second
range are added to the column's existing row map and no first-range row
is lost — with every row carrying its `getCellValue` resolution. -/
theorem c1_same_column_ranges_merge
    (sheetXml : String) (ss : List String) (st : StylesInfo)
    (i1 i2 c : String) (s1 e1 s2 e2 : Nat)
    (h1 : parseInterval i1 = some (c, s1, e1))
    (h2 : parseInterval i2 = some (c, s2, e2)) :
    ∃ res, lerIntervalos sheetXml (i1 :: i2 :: []) ss st = some res ∧
      ∀ r : Nat, resLookup res c r =
        if (s1 ≤ r ∧ r ≤ e1) ∨ (s2 ≤ r ∧ r ≤ e2) then
          some (getCellValue sheetXml (c ++ toString r) ss st)
        else none := by
  refine ⟨setCol (setCol [] c
      (fillRows sheetXml ss st c s1 (e1 + 1 - s1) [])) c
      (fillRows sheetXml ss st c s2 (e2 + 1 - s2)
        (fillRows sheetXml ss st c s1 (e1 + 1 - s1) [])), ?_, ?_⟩
  · simp only [lerIntervalos, List.foldlM, h1, h2, bind, Option.bind,
      getCol?, getCol?_setCol_same, Option.getD_some, Option.getD_none, if_true, pure]
  · intro r
    rw [resLookup, getCol?_setCol_same]
    simp only [lookupRow_fillRows]
    by_cases ha : s2 ≤ r ∧ r < s2 + (e2 + 1 - s2)
    · rw [if_pos ha, if_pos (Or.inr (by omega))]
    · rw [if_neg ha]
      by_cases hb : s1 ≤ r ∧ r < s1 + (e1 + 1 - s1)
      · rw [if_pos hb, if_pos (Or.inl (by omega))]
      · rw [if_neg hb, if_neg (by omega)]
        rfl

/-- C1 witness: the call with ranges ["H1-H2", "H5-H6"] puts exactly
rows {1,2,5,6} under column "H". -/
theorem c1_same_column_ranges_merge_witness :
    ∃ res, lerIntervalos "" ("H1-H2" :: "H5-H6" :: []) [] emptyStyles = some res ∧
      ∀ r : Nat, resLookup res "H" r =
        if (1 ≤ r ∧ r ≤ 2) ∨ (5 ≤ r ∧ r ≤ 6) then
          some (getCellValue "" ("H" ++ toString r) [] emptyStyles)
        else none :=
  c1_same_column_ranges_merge "" [] emptyStyles "H1-H2" "H5-H6" "H" 1 2 5 6
    (by decide) (by decide)

end ExcelReader
